import Mathlib

/-!
# Verification of the Multilingo chatbot resolver (src/main.py)

Shallow embedding of the response-caching resolver
`generate_response_with_gemini` and the `/chat` request handler.

The remote services (Gemini generation, Google translation) are modelled
as oracles: a `Backend` gives, for each input, either a successful text
or the exception the Python call would raise.  The process-wide
`response_cache` dict is modelled as an association list threaded through
the functions; the number of upstream calls made is returned alongside.
-/

namespace Multilingo

/-- Outcome of one call to `llm.invoke(prompt).content` (src/main.py:61):
either generated text, a `ResourceExhausted` (quota) exception, or any
other exception. -/
inductive GenResult where
  | ok (text : String)
  | quotaExceeded
  | otherError
deriving DecidableEq, Repr

/-- Outcome of one call to `GoogleTranslator(...).translate(...)`
(src/main.py:83): translated text, or any exception. -/
inductive TransResult where
  | ok (text : String)
  | failure
deriving DecidableEq, Repr

/-- The two remote services, as deterministic oracles.  `gen` is indexed
by the user query (the prompt of src/main.py:51-59 is a fixed function of
the query, the knowledge base being a process constant); `trans` is
indexed by the text to translate and the target language code. -/
structure Backend where
  gen : String → GenResult
  trans : String → String → TransResult

/-- The `response_cache` dict (src/main.py:35), as an association list;
the most recent binding of a key shadows older ones. -/
abbrev Cache := List (String × String)

/-- Dict lookup: `response_cache[k]` / `k in response_cache`. -/
def cacheGet : Cache → String → Option String
  | [], _ => none
  | (k', v) :: c, k => if k = k' then some v else cacheGet c k

/-- Dict write: `response_cache[k] = v`. -/
def cachePut (c : Cache) (k v : String) : Cache := (k, v) :: c

/-- `LANG_MAP` (src/main.py:38). -/
def LANG_MAP : List (String × String) :=
  [("en", "en"), ("hi", "hi"), ("gu", "gu"), ("ta", "ta"), ("mr", "mr")]

/-- `LANG_MAP.get(language, "en")` (src/main.py:77). -/
def langMapGet (language : String) : String :=
  (cacheGet LANG_MAP language).getD "en"

/-- Cache-key construction `f"{user_query}_{language}"`
(src/main.py:42, 47, 78). -/
def cacheKey (user_query language : String) : String :=
  user_query ++ "_" ++ language

/-- The fixed quota apology (src/main.py:64). -/
def quotaMsg : String := "Sorry, the API quota is exceeded. Try again later."

/-- The fixed generic apology (src/main.py:67). -/
def errorMsg : String := "Sorry, I'm having trouble connecting right now."

/-- The `try: llm.invoke ... except` block (src/main.py:60-67): always
returns a string, turning exceptions into fixed apologies. -/
def invokeGemini (B : Backend) (user_query : String) : String :=
  match B.gen user_query with
  | .ok t => t
  | .quotaExceeded => quotaMsg
  | .otherError => errorMsg

/-- Result of one resolver call: the returned string, the cache
afterwards, and how many generation / translation calls were made. -/
structure ResolveResult where
  text : String
  cache : Cache
  genCalls : Nat
  transCalls : Nat
deriving DecidableEq, Repr

/-- The English-response block (src/main.py:47-69): reuse the cached
English answer, or invoke Gemini and store the result under
`english_key`.  Returns (english_response, cache, generator calls). -/
def englishStep (B : Backend) (user_query : String) (response_cache : Cache) :
    String × Cache × Nat :=
  match cacheGet response_cache (cacheKey user_query "en") with
  | some e => (e, response_cache, 0)
  | none =>
    let e := invokeGemini B user_query
    (e, cachePut response_cache (cacheKey user_query "en") e, 1)

/-- The translation block (src/main.py:78-87): reuse the cached
translation, or invoke the translator (falling back to the untranslated
text on failure) and store the result under `translation_key`.
Returns (translated_response, cache, translator calls). -/
def translateStep (B : Backend) (user_query target_lang english_response : String)
    (c : Cache) : String × Cache × Nat :=
  match cacheGet c (cacheKey user_query target_lang) with
  | some t => (t, c, 0)
  | none =>
    let t :=
      match B.trans english_response target_lang with
      | .ok tt => tt
      | .failure => english_response
    (t, cachePut c (cacheKey user_query target_lang) t, 1)

/-- `generate_response_with_gemini(user_query, language)`
(src/main.py:41-90), with the cache passed explicitly. -/
def generate_response_with_gemini (B : Backend) (user_query language : String)
    (response_cache : Cache) : ResolveResult :=
  let cache_key := cacheKey user_query language
  match cacheGet response_cache cache_key with
  | some v => ⟨v, response_cache, 0, 0⟩
  | none =>
    let s1 := englishStep B user_query response_cache
    let english_response := s1.1
    if language = "en" then
      ⟨english_response, cachePut s1.2.1 cache_key english_response, s1.2.2, 0⟩
    else
      let target_lang := langMapGet language
      let s2 := translateStep B user_query target_lang english_response s1.2.1
      ⟨s2.1, cachePut s2.2.1 cache_key s2.1, s1.2.2, s2.2.2⟩

/-- The fixed prompt-for-input message (src/main.py:103). -/
def promptMsg : String := "Please enter a question."

/-- The `/chat` handler (src/main.py:97-106).  `user_query` is
`request.form.get("user_query")` (`none` when the field is absent);
`language` is `request.form.get("language", "en")`.  Python's
`if not user_query` fires exactly on `None` and the empty string. -/
def chat (B : Backend) (user_query : Option String) (language : Option String)
    (response_cache : Cache) : ResolveResult :=
  let lang := language.getD "en"
  match user_query with
  | none => ⟨promptMsg, response_cache, 0, 0⟩
  | some q =>
    if q = "" then ⟨promptMsg, response_cache, 0, 0⟩
    else generate_response_with_gemini B q lang response_cache

/-- A sequence of `/chat`-driven resolver calls, threading the cache. -/
def runSequence (B : Backend) : List (String × String) → Cache → Cache
  | [], c => c
  | (q, l) :: rest, c =>
    runSequence B rest (generate_response_with_gemini B q l c).cache

/-- A concrete backend used to instantiate universally quantified
theorems on explicit inputs. -/
def demoBackend : Backend where
  gen q := .ok ("answer to " ++ q)
  trans t lang := .ok ("[" ++ lang ++ "] " ++ t)

/-- A concrete backend whose generator always raises `ResourceExhausted`. -/
def quotaBackend : Backend where
  gen _ := .quotaExceeded
  trans t lang := .ok ("[" ++ lang ++ "] " ++ t)

/-- A concrete backend whose translator always raises. -/
def failTransBackend : Backend where
  gen q := .ok ("answer to " ++ q)
  trans _ _ := .failure

/-! ## Basic cache lemmas -/

@[simp]
theorem cacheGet_cachePut_self (c : Cache) (k v : String) :
    cacheGet (cachePut c k v) k = some v := by
  simp [cacheGet, cachePut]

theorem cacheGet_cachePut_ne (c : Cache) (k k' v : String) (h : k ≠ k') :
    cacheGet (cachePut c k' v) k = cacheGet c k := by
  simp [cacheGet, cachePut, h]

theorem cacheKey_data (q l : String) :
    (cacheKey q l).data = q.data ++ '_' :: l.data := by
  simp [cacheKey]

/-- Within one query, the key determines the language. -/
theorem cacheKey_left_cancel {q l₁ l₂ : String}
    (h : cacheKey q l₁ = cacheKey q l₂) : l₁ = l₂ := by
  have hd := congrArg String.data h
  rw [cacheKey_data, cacheKey_data] at hd
  have := List.append_cancel_left hd
  ext1
  exact List.cons_injective this

/-- A resolver call whose full key is already cached returns the entry
immediately, touching nothing (src/main.py:43-44). -/
theorem resolve_of_hit (B : Backend) (q l : String) (s : Cache) (v : String)
    (h : cacheGet s (cacheKey q l) = some v) :
    generate_response_with_gemini B q l s = ⟨v, s, 0, 0⟩ := by
  unfold generate_response_with_gemini
  simp [h]

/-- After any resolver call, the full key holds the returned string. -/
theorem resolve_caches_result (B : Backend) (q l : String) (s : Cache) :
    cacheGet (generate_response_with_gemini B q l s).cache (cacheKey q l)
      = some (generate_response_with_gemini B q l s).text := by
  unfold generate_response_with_gemini
  cases h : cacheGet s (cacheKey q l) with
  | some v => simp [h]
  | none =>
    simp only [h]
    split <;> simp

/-- One resolver call never disturbs an existing cache binding: every key
visible before the call maps to the same value after it. -/
theorem resolve_preserves (B : Backend) (q l : String) (s : Cache) (k v : String)
    (h : cacheGet s k = some v) :
    cacheGet (generate_response_with_gemini B q l s).cache k = some v := by
  have hne : ∀ k' : String, cacheGet s k' = none → k ≠ k' := by
    intro k' hk' he
    rw [he, hk'] at h
    exact Option.noConfusion h
  unfold generate_response_with_gemini
  cases h0 : cacheGet s (cacheKey q l) with
  | some w => simpa [h0] using h
  | none =>
    simp only [h0]
    by_cases hl : l = "en"
    · subst hl
      rw [if_pos rfl]
      cases h1 : cacheGet s (cacheKey q "en") with
      | some e =>
        rw [h1] at h0
        exact Option.noConfusion h0
      | none =>
        simp only [englishStep, h1]
        rw [cacheGet_cachePut_ne _ _ _ _ (hne _ h1),
          cacheGet_cachePut_ne _ _ _ _ (hne _ h1)]
        exact h
    · rw [if_neg hl]
      cases h1 : cacheGet s (cacheKey q "en") with
      | some e =>
        simp only [englishStep, h1, translateStep]
        cases h2 : cacheGet s (cacheKey q (langMapGet l)) with
        | some t =>
          simp only [h2]
          rw [cacheGet_cachePut_ne _ _ _ _ (hne _ h0)]
          exact h
        | none =>
          simp only [h2]
          rw [cacheGet_cachePut_ne _ _ _ _ (hne _ h0),
            cacheGet_cachePut_ne _ _ _ _ (hne _ h2)]
          exact h
      | none =>
        simp only [englishStep, h1, translateStep]
        have hcache1 : cacheGet (cachePut s (cacheKey q "en") (invokeGemini B q)) k
            = some v := by
          rw [cacheGet_cachePut_ne _ _ _ _ (hne _ h1)]
          exact h
        cases h2 : cacheGet (cachePut s (cacheKey q "en") (invokeGemini B q))
            (cacheKey q (langMapGet l)) with
        | some t =>
          simp only [h2]
          rw [cacheGet_cachePut_ne _ _ _ _ (hne _ h0)]
          exact hcache1
        | none =>
          simp only [h2]
          have hne2 : k ≠ cacheKey q (langMapGet l) := by
            intro he
            rw [he, h2] at hcache1
            exact Option.noConfusion hcache1
          rw [cacheGet_cachePut_ne _ _ _ _ (hne _ h0),
            cacheGet_cachePut_ne _ _ _ _ hne2]
          exact hcache1

/-- Preservation extends to any sequence of resolver calls. -/
theorem runSequence_preserves (B : Backend) (reqs : List (String × String))
    (s : Cache) (k v : String) (h : cacheGet s k = some v) :
    cacheGet (runSequence B reqs s) k = some v := by
  induction reqs generalizing s with
  | nil => simpa [runSequence] using h
  | cons r rest ih =>
    obtain ⟨q, l⟩ := r
    exact ih _ (resolve_preserves B q l s k v h)

/-- An English-language resolver call on a miss generates once and writes
the result under the (identical) english and full keys
(src/main.py:47-74 with `language == "en"`). -/
theorem resolve_en_miss (B : Backend) (q : String) (s : Cache)
    (h : cacheGet s (cacheKey q "en") = none) :
    generate_response_with_gemini B q "en" s =
      ⟨invokeGemini B q,
        cachePut (cachePut s (cacheKey q "en") (invokeGemini B q))
          (cacheKey q "en") (invokeGemini B q), 1, 0⟩ := by
  unfold generate_response_with_gemini
  simp [h, englishStep]

/-- Once the English answer for `q` is cached, no resolver call for `q`
invokes the generator (src/main.py:48-49). -/
theorem resolve_genCalls_zero_of_en_cached (B : Backend) (q l : String)
    (s : Cache) (e : String)
    (h : cacheGet s (cacheKey q "en") = some e) :
    (generate_response_with_gemini B q l s).genCalls = 0 := by
  unfold generate_response_with_gemini
  cases h0 : cacheGet s (cacheKey q l) with
  | some w => simp [h0]
  | none =>
    simp only [h0]
    by_cases hl : l = "en"
    · rw [if_pos hl]
      simp [englishStep, h]
    · rw [if_neg hl]
      simp [englishStep, h, translateStep]

/-! ## Claims -/

section Claims

/-- **C1, counterexample.**  The cache-key construction is not injective
on all pairs: the distinct pairs `("a_b", "c")` and `("a", "b_c")` get
the same key `"a_b_c"`. -/
theorem cacheKey_not_injective :
    cacheKey "a_b" "c" = cacheKey "a" "b_c" ∧
    (("a_b", "c") : String × String) ≠ ("a", "b_c") := by
  constructor
  · rfl
  · decide

/-- Splitting a list at an underscore that occurs in neither side-part is
unambiguous. -/
theorem append_underscore_eq {a : List Char} (ha : '_' ∉ a) :
    ∀ {c : List Char}, '_' ∉ c → ∀ {b d : List Char},
      a ++ '_' :: b = c ++ '_' :: d → a = c ∧ b = d := by
  induction a with
  | nil =>
    intro c hc b d h
    cases c with
    | nil => simpa using h
    | cons y c' =>
      simp only [List.nil_append, List.cons_append, List.cons.injEq] at h
      exact absurd (h.1 ▸ List.mem_cons_self y c') (h.1 ▸ hc)
  | cons x a' ih =>
    intro c hc b d h
    cases c with
    | nil =>
      simp only [List.nil_append, List.cons_append, List.cons.injEq] at h
      exact absurd (h.1 ▸ List.mem_cons_self x a') (h.1 ▸ ha)
    | cons y c' =>
      simp only [List.cons_append, List.cons.injEq] at h
      have ha' : '_' ∉ a' := fun hm => ha (List.mem_cons_of_mem x hm)
      have hc' : '_' ∉ c' := fun hm => hc (List.mem_cons_of_mem y hm)
      obtain ⟨h1, h2⟩ := ih ha' hc' h.2
      exact ⟨by rw [h.1, h1], h2⟩

/-- **C1, amended.**  The cache-key construction is injective on pairs
whose language code contains no underscore: for distinct such pairs the
keys are distinct.  (In general it is not injective: see
`cacheKey_not_injective`.) -/
theorem cacheKey_injective_no_underscore (q₁ l₁ q₂ l₂ : String)
    (h₁ : '_' ∉ l₁.data) (h₂ : '_' ∉ l₂.data)
    (hne : (q₁, l₁) ≠ (q₂, l₂)) :
    cacheKey q₁ l₁ ≠ cacheKey q₂ l₂ := by
  intro h
  have hd := congrArg (fun s => s.data.reverse) h
  simp only [cacheKey_data, List.reverse_append, List.reverse_cons] at hd
  have hd' : l₁.data.reverse ++ '_' :: q₁.data.reverse
      = l₂.data.reverse ++ '_' :: q₂.data.reverse := by
    simpa using hd
  have h₁' : '_' ∉ l₁.data.reverse := by simpa using h₁
  have h₂' : '_' ∉ l₂.data.reverse := by simpa using h₂
  obtain ⟨hl, hq⟩ := append_underscore_eq h₁' h₂' hd'
  apply hne
  have hleq : l₁ = l₂ := by
    ext1; exact List.reverse_injective hl
  have hqeq : q₁ = q₂ := by
    ext1; exact List.reverse_injective hq
  rw [hleq, hqeq]

/-- **C1, witness** for the amended injectivity theorem. -/
theorem cacheKey_injective_no_underscore_witness :
    ('_' ∉ ("en" : String).data) ∧ ('_' ∉ ("hi" : String).data) ∧
    ((("ask", "en") : String × String) ≠ ("ask", "hi")) ∧
    cacheKey "ask" "en" ≠ cacheKey "ask" "hi" :=
  ⟨by decide, by decide, by decide,
    cacheKey_injective_no_underscore "ask" "en" "ask" "hi"
      (by decide) (by decide) (by decide)⟩

/-- **C2.**  For every query `q` and language `l`, resolving `(q, l)` a
second time with no intervening cache change returns the identical
string and makes zero generation calls and zero translation calls. -/
theorem resolve_second_call_is_pure_hit (B : Backend) (q l : String) (s : Cache) :
    (generate_response_with_gemini B q l
        (generate_response_with_gemini B q l s).cache).text
      = (generate_response_with_gemini B q l s).text ∧
    (generate_response_with_gemini B q l
        (generate_response_with_gemini B q l s).cache).genCalls = 0 ∧
    (generate_response_with_gemini B q l
        (generate_response_with_gemini B q l s).cache).transCalls = 0 := by
  rw [resolve_of_hit B q l _ _ (resolve_caches_result B q l s)]
  exact ⟨rfl, rfl, rfl⟩

/-- **C3.**  If the generator raises a quota-exceeded condition on an
uncached query, the resolver returns the fixed quota apology, stores it
under the (query, "en") key, and every subsequent resolve of the same
pair — after any intervening resolver calls — returns the cached apology
with zero further generation or translation calls. -/
theorem quota_failure_sticky (B : Backend) (q : String) (s : Cache)
    (reqs : List (String × String))
    (hq : B.gen q = .quotaExceeded)
    (hmiss : cacheGet s (cacheKey q "en") = none) :
    (generate_response_with_gemini B q "en" s).text = quotaMsg ∧
    cacheGet (generate_response_with_gemini B q "en" s).cache (cacheKey q "en")
      = some quotaMsg ∧
    generate_response_with_gemini B q "en"
        (runSequence B reqs (generate_response_with_gemini B q "en" s).cache)
      = ⟨quotaMsg,
          runSequence B reqs (generate_response_with_gemini B q "en" s).cache,
          0, 0⟩ := by
  have hg : invokeGemini B q = quotaMsg := by simp [invokeGemini, hq]
  rw [resolve_en_miss B q s hmiss]
  refine ⟨hg, by simp [hg], ?_⟩
  have hcached :
      cacheGet (cachePut (cachePut s (cacheKey q "en") (invokeGemini B q))
          (cacheKey q "en") (invokeGemini B q)) (cacheKey q "en")
        = some quotaMsg := by
    simp [hg]
  exact resolve_of_hit B q "en" _ quotaMsg
    (runSequence_preserves B reqs _ _ _ hcached)

/-- **C3, witness.** -/
theorem quota_failure_sticky_witness :
    quotaBackend.gen "q" = GenResult.quotaExceeded ∧
    cacheGet [] (cacheKey "q" "en") = none ∧
    (generate_response_with_gemini quotaBackend "q" "en" []).text = quotaMsg :=
  ⟨rfl, rfl, (quota_failure_sticky quotaBackend "q" [] [] rfl rfl).1⟩

/-- **C8.**  Cache entries are immutable: a key holding a value keeps
exactly that value across any single resolver call and across any
sequence of resolver calls (no overwrite with a different value, no
removal). -/
theorem cache_entries_immutable (B : Backend) (q l : String)
    (reqs : List (String × String)) (s : Cache) (k v : String)
    (h : cacheGet s k = some v) :
    cacheGet (generate_response_with_gemini B q l s).cache k = some v ∧
    cacheGet (runSequence B reqs s) k = some v :=
  ⟨resolve_preserves B q l s k v h, runSequence_preserves B reqs s k v h⟩

/-- **C8, witness.** -/
theorem cache_entries_immutable_witness :
    cacheGet [("k", "v")] "k" = some "v" ∧
    cacheGet (generate_response_with_gemini demoBackend "q" "hi"
        [("k", "v")]).cache "k" = some "v" ∧
    cacheGet (runSequence demoBackend [("q", "en"), ("q", "hi")]
        [("k", "v")]) "k" = some "v" := by
  have h := cache_entries_immutable demoBackend "q" "hi"
    [("q", "en"), ("q", "hi")] [("k", "v")] "k" "v" (by decide)
  exact ⟨by decide, h.1, h.2⟩

/-- **C4.**  For a query whose source (English) answer is cached and a
supported target language whose translation is uncached, a failing
translation backend makes the resolver return the untranslated source
answer unchanged. -/
theorem translation_failure_returns_untranslated (B : Backend)
    (q t e : String) (s : Cache)
    (hsup : cacheGet LANG_MAP t = some t)
    (hsrc : cacheGet s (cacheKey q "en") = some e)
    (hmiss : cacheGet s (cacheKey q t) = none)
    (hfail : B.trans e t = .failure) :
    (generate_response_with_gemini B q t s).text = e := by
  have hten : t ≠ "en" := by
    intro he
    subst he
    rw [hmiss] at hsrc
    exact Option.noConfusion hsrc
  have htarget : langMapGet t = t := by simp [langMapGet, hsup]
  unfold generate_response_with_gemini
  simp only [hmiss]
  rw [if_neg hten]
  simp [englishStep, hsrc, translateStep, htarget, hmiss, hfail]

/-- **C4, witness.** -/
theorem translation_failure_returns_untranslated_witness :
    cacheGet LANG_MAP "hi" = some "hi" ∧
    cacheGet [("q_en", "E")] (cacheKey "q" "en") = some "E" ∧
    cacheGet [("q_en", "E")] (cacheKey "q" "hi") = none ∧
    failTransBackend.trans "E" "hi" = TransResult.failure ∧
    (generate_response_with_gemini failTransBackend "q" "hi"
        [("q_en", "E")]).text = "E" :=
  ⟨by decide, by decide, by decide, rfl,
    translation_failure_returns_untranslated failTransBackend "q" "hi" "E"
      [("q_en", "E")] (by decide) (by decide) (by decide) rfl⟩

/-- **C5.**  Resolving `(q, "en")` from a state where `q`'s English
answer is uncached, then resolving `(q, l)` for any language `l`,
invokes the generator exactly once in total: once in the first call and
zero times in the second. -/
theorem generator_invoked_exactly_once (B : Backend) (q l : String) (s : Cache)
    (hmiss : cacheGet s (cacheKey q "en") = none) :
    (generate_response_with_gemini B q "en" s).genCalls = 1 ∧
    (generate_response_with_gemini B q l
        (generate_response_with_gemini B q "en" s).cache).genCalls = 0 := by
  rw [resolve_en_miss B q s hmiss]
  exact ⟨rfl,
    resolve_genCalls_zero_of_en_cached B q l _ _ (cacheGet_cachePut_self _ _ _)⟩

/-- **C5, witness.** -/
theorem generator_invoked_exactly_once_witness :
    cacheGet [] (cacheKey "q" "en") = none ∧
    (generate_response_with_gemini demoBackend "q" "en" []).genCalls = 1 ∧
    (generate_response_with_gemini demoBackend "q" "hi"
        (generate_response_with_gemini demoBackend "q" "en" []).cache).genCalls
      = 0 := by
  have h := generator_invoked_exactly_once demoBackend "q" "hi" [] rfl
  exact ⟨rfl, h.1, h.2⟩

/-- **C6, counterexample.**  The claim fails as stated: from the cache
state reached by resolving `("a_b", "c")` (reachable from the empty
cache), the unrecognized code `"b_c"` does **not** behave like `"en"`
for the query `"a"` — the colliding key `"a_b_c"` makes
`resolve("a", "b_c")` return the answer cached for the query `"a_b"`. -/
theorem unrecognized_lang_counterexample :
    cacheGet LANG_MAP "b_c" = none ∧
    (generate_response_with_gemini demoBackend "a" "b_c"
        (generate_response_with_gemini demoBackend "a_b" "c" []).cache).text
      ≠ (generate_response_with_gemini demoBackend "a" "en"
        (generate_response_with_gemini demoBackend "a_b" "c" []).cache).text := by
  constructor
  · decide
  · decide

/-- **C6, amended.**  For every unrecognized language code `lq` and
every cache state holding no entry under the key computed for
`(q, lq)` — an entry there can only come from a colliding key — the
resolver returns the same string as it does for `"en"` from the same
state. -/
theorem unrecognized_lang_same_as_en (B : Backend) (q lq : String) (s : Cache)
    (hsup : cacheGet LANG_MAP lq = none)
    (hmiss : cacheGet s (cacheKey q lq) = none) :
    (generate_response_with_gemini B q lq s).text
      = (generate_response_with_gemini B q "en" s).text := by
  have hlen : lq ≠ "en" := by
    intro he
    subst he
    exact absurd hsup (by decide)
  have htarget : langMapGet lq = "en" := by simp [langMapGet, hsup]
  cases h1 : cacheGet s (cacheKey q "en") with
  | some e =>
    rw [resolve_of_hit B q "en" s e h1]
    unfold generate_response_with_gemini
    simp only [hmiss]
    rw [if_neg hlen]
    simp [englishStep, h1, translateStep, htarget]
  | none =>
    rw [resolve_en_miss B q s h1]
    unfold generate_response_with_gemini
    simp only [hmiss]
    rw [if_neg hlen]
    simp [englishStep, h1, translateStep, htarget]

/-- **C6, witness.** -/
theorem unrecognized_lang_same_as_en_witness :
    cacheGet LANG_MAP "fr" = none ∧
    cacheGet [] (cacheKey "q" "fr") = none ∧
    (generate_response_with_gemini demoBackend "q" "fr" []).text
      = (generate_response_with_gemini demoBackend "q" "en" []).text :=
  ⟨by decide, rfl,
    unrecognized_lang_same_as_en demoBackend "q" "fr" [] (by decide) rfl⟩

/-- **C7.**  A `/chat` request with a missing or empty query returns the
fixed prompt-for-input message, leaves the cache exactly as it was, and
makes zero generation and zero translation calls. -/
theorem missing_query_prompts (B : Backend) (lang : Option String) (s : Cache) :
    chat B none lang s = ⟨promptMsg, s, 0, 0⟩ ∧
    chat B (some "") lang s = ⟨promptMsg, s, 0, 0⟩ := by
  constructor <;> simp [chat]

/-- **C9.**  For an unrecognized language code, the resolver never
invokes the translation backend, and (when the full key is uncached,
i.e. free of colliding entries) it additionally stores the
source-language answer under the `(q, lq)` key itself: afterwards that
key and the `(q, "en")` key hold the same entry. -/
theorem unrecognized_lang_no_translation (B : Backend) (q lq : String)
    (s : Cache) (hsup : cacheGet LANG_MAP lq = none) :
    (generate_response_with_gemini B q lq s).transCalls = 0 ∧
    (cacheGet s (cacheKey q lq) = none →
      cacheGet (generate_response_with_gemini B q lq s).cache (cacheKey q lq)
        = cacheGet (generate_response_with_gemini B q lq s).cache
            (cacheKey q "en")) := by
  have hlen : lq ≠ "en" := by
    intro he
    subst he
    exact absurd hsup (by decide)
  have htarget : langMapGet lq = "en" := by simp [langMapGet, hsup]
  have hkne : cacheKey q "en" ≠ cacheKey q lq := by
    intro he
    exact hlen (cacheKey_left_cancel he).symm
  constructor
  · unfold generate_response_with_gemini
    cases h0 : cacheGet s (cacheKey q lq) with
    | some w => simp [h0]
    | none =>
      simp only [h0]
      rw [if_neg hlen]
      cases h1 : cacheGet s (cacheKey q "en") with
      | some e => simp [englishStep, h1, translateStep, htarget]
      | none => simp [englishStep, h1, translateStep, htarget]
  · intro hmiss
    unfold generate_response_with_gemini
    simp only [hmiss]
    rw [if_neg hlen]
    cases h1 : cacheGet s (cacheKey q "en") with
    | some e =>
      simp only [englishStep, h1, translateStep, htarget]
      rw [cacheGet_cachePut_self, cacheGet_cachePut_ne _ _ _ _ hkne, h1]
    | none =>
      simp only [englishStep, h1, translateStep, htarget,
        cacheGet_cachePut_self]
      rw [cacheGet_cachePut_ne _ _ _ _ hkne, cacheGet_cachePut_self]

/-- **C9, witness.** -/
theorem unrecognized_lang_no_translation_witness :
    cacheGet LANG_MAP "fr" = none ∧
    (generate_response_with_gemini demoBackend "q" "fr" []).transCalls = 0 ∧
    (cacheGet [] (cacheKey "q" "fr") = none →
      cacheGet (generate_response_with_gemini demoBackend "q" "fr" []).cache
          (cacheKey "q" "fr")
        = cacheGet (generate_response_with_gemini demoBackend "q" "fr" []).cache
            (cacheKey "q" "en")) := by
  have h := unrecognized_lang_no_translation demoBackend "q" "fr" [] (by decide)
  exact ⟨by decide, h.1, fun _ => h.2 rfl⟩

/-- On a full-key miss with the English key also missing, the resolver
makes exactly one generation call (src/main.py:50-69). -/
theorem resolve_genCalls_one_of_misses (B : Backend) (q l : String) (s : Cache)
    (h0 : cacheGet s (cacheKey q l) = none)
    (h1 : cacheGet s (cacheKey q "en") = none) :
    (generate_response_with_gemini B q l s).genCalls = 1 := by
  unfold generate_response_with_gemini
  simp only [h0]
  by_cases hl : l = "en"
  · rw [if_pos hl]
    simp [englishStep, h1]
  · rw [if_neg hl]
    simp [englishStep, h1]

/-- **C10.**  A query of only whitespace is not treated as missing: the
`/chat` handler passes it to the resolver, which (on a fresh cache)
invokes the generator exactly once, like any other query. -/
theorem whitespace_query_not_missing (B : Backend) (lang : Option String)
    (s : Cache) :
    chat B (some "   ") lang s
      = generate_response_with_gemini B "   " (lang.getD "en") s ∧
    (chat B (some "   ") lang []).genCalls = 1 := by
  have hchat : ∀ c : Cache, chat B (some "   ") lang c
      = generate_response_with_gemini B "   " (lang.getD "en") c := by
    intro c
    simp only [chat]
    rw [if_neg (by decide : ¬("   " : String) = "")]
  refine ⟨hchat s, ?_⟩
  rw [hchat []]
  exact resolve_genCalls_one_of_misses B "   " (lang.getD "en") [] rfl rfl

end Claims

end Multilingo
